import Mathlib

/-!
Shallow embedding of the DevMetrics change-detection engine (src/main.rs).

The git2 / chrono / filesystem environment is modelled abstractly:
a `Repo` carries the results of the libgit2 calls the program makes
(status list, index-to-workdir diff, revwalk items, commit lookup,
tree-to-tree diff, diff stats), and a `TimeEnv` carries the chrono
operations (`DateTime::from_timestamp`, conversion to a local calendar
date, and today's local date).  Object ids, tree ids and diff handles
are plain naturals; errors carry a numeric code.

Counters in the program are `i32` and libgit2 stat totals are `usize`
cast with `as i32`, so all counter arithmetic goes through an explicit
32-bit two's-complement wrap.
-/

deriving instance DecidableEq for Except

namespace DevMetrics

/-- Two's-complement wrap of an integer into the `i32` range,
modelling Rust `i32` wrapping arithmetic. -/
def wrap32 (z : Int) : Int :=
  (z + 2 ^ 31) % 2 ^ 32 - 2 ^ 31

/-- Rust `i32` addition (wrapping). -/
def i32add (a b : Int) : Int :=
  wrap32 (a + b)

/-- Rust `usize as i32` cast applied to a stat total. -/
def usizeToI32 (n : Nat) : Int :=
  wrap32 (n : Int)

/-- A `git2::Error`, identified by a numeric code. -/
structure GitError where
  code : Nat
  deriving DecidableEq

/-- A `git2::Status` bitflag value; `Status::CURRENT` is the empty flag `0`. -/
abbrev StatusFlags := Nat

/-- `git2::Status::CURRENT`: the empty status bitflag. -/
def statusCurrent : StatusFlags := 0

/-- One entry of `repo.statuses(...)`: its status flags and the result of
`entry.path()` (`none` models a path that is not valid UTF-8). -/
structure StatusEntry where
  status : StatusFlags
  path : Option String
  deriving DecidableEq

/-- The first parent of a commit, as obtained by `commit.parent(0)`;
`tree` is the result of `parent.tree()`. -/
structure ParentCommit where
  tree : Except GitError Nat

/-- A commit as the program reads it: `commit.time().seconds()`,
`commit.author().name()` (`none` models a non-UTF-8 name),
`commit.parent(0)` (`none` models `Err`, e.g. a root commit),
and `commit.tree()`. -/
structure Commit where
  time : Int
  authorName : Option String
  parent : Option ParentCommit
  tree : Except GitError Nat

/-- A repository handle: the results of every libgit2 call the program makes.
Diff handles and tree/object ids are naturals; `diffStats` gives the
`(insertions, deletions)` of a diff handle as `usize` totals. -/
structure Repo where
  statuses : Except GitError (List StatusEntry)
  diffIndexToWorkdir : Except GitError Nat
  diffStats : Nat → Except GitError (Nat × Nat)
  revwalk : Except GitError (List (Except GitError Nat))
  findCommit : Nat → Except GitError Commit
  diffTreeToTree : Nat → Nat → Except GitError Nat

/-- The chrono environment: `fromTimestamp` models
`DateTime::from_timestamp(secs, 0)` (`none` = out of range), `localDate`
models `dt.with_timezone(&Local).date_naive()`, and `today` models
`Local::now().date_naive()`.  Datetimes and dates are numeric codes. -/
structure TimeEnv where
  fromTimestamp : Int → Option Int
  localDate : Int → Int
  today : Int

/-- `is_commit_from_today` from src/main.rs: convert the commit's epoch
seconds with `DateTime::from_timestamp`; on success compare its local
calendar date with today's, on failure return `false`. -/
def is_commit_from_today (env : TimeEnv) (commit_time : Int) : Bool :=
  match env.fromTimestamp commit_time with
  | some dt => env.localDate dt == env.today
  | none => false

/-- `count_file_changes` from src/main.rs: the whole-repository
index-to-workdir diff stat totals cast `as i32`, or `(0, 0)` if the diff
or its stats cannot be computed. -/
def count_file_changes (repo : Repo) : Int × Int :=
  match repo.diffIndexToWorkdir with
  | .ok diff =>
    match repo.diffStats diff with
    | .ok stats => (usizeToI32 stats.1, usizeToI32 stats.2)
    | .error _ => (0, 0)
  | .error _ => (0, 0)

/-- The status loop of `get_repo_changes`: for every status entry that is
not `CURRENT` and whose path is representable, re-add the whole-repository
diff stat totals to the pending counters (`i32` wrapping addition). -/
def computePending (repo : Repo) : List StatusEntry → Int × Int → Int × Int
  | [], acc => acc
  | s :: rest, acc =>
    if s.status ≠ statusCurrent then
      match s.path with
      | some _ =>
        let c := count_file_changes repo
        computePending repo rest (i32add acc.1 c.1, i32add acc.2 c.2)
      | none => computePending repo rest acc
    else
      computePending repo rest acc

/-- The revwalk loop of `get_repo_changes`, acting on the committed
counters.  Each item is one value yielded by the revwalk iterator
(`oid?` propagates iterator errors).  The walk breaks at the first commit
not from today; for a today commit by the configured author it adds the
first-parent tree-to-tree diff stats, skipping the commit silently when
`commit.parent(0)` fails, while `find_commit`, `parent.tree()`,
`commit.tree()`, `diff_tree_to_tree` and `diff.stats()` errors propagate. -/
def walkCommits (repo : Repo) (env : TimeEnv) (author : String) :
    List (Except GitError Nat) → Int × Int → Except GitError (Int × Int)
  | [], acc => .ok acc
  | item :: rest, acc =>
    match item with
    | .error e => .error e
    | .ok oid =>
      match repo.findCommit oid with
      | .error e => .error e
      | .ok commit =>
        if is_commit_from_today env commit.time then
          if commit.authorName.getD "" = author then
            match commit.parent with
            | none => walkCommits repo env author rest acc
            | some parent =>
              match parent.tree with
              | .error e => .error e
              | .ok parentTree =>
                match commit.tree with
                | .error e => .error e
                | .ok commitTree =>
                  match repo.diffTreeToTree parentTree commitTree with
                  | .error e => .error e
                  | .ok diff =>
                    match repo.diffStats diff with
                    | .error e => .error e
                    | .ok stats =>
                      walkCommits repo env author rest
                        (i32add acc.1 (usizeToI32 stats.1),
                         i32add acc.2 (usizeToI32 stats.2))
          else
            walkCommits repo env author rest acc
        else
          .ok acc

/-- `RepoStats` from src/main.rs. -/
structure RepoStats where
  committed_additions : Int
  committed_deletions : Int
  pending_additions : Int
  pending_deletions : Int
  deriving DecidableEq

/-- `get_repo_changes` from src/main.rs: pending counters from the status
loop, committed counters from the revwalk; `statuses()?`, `revwalk()?` /
`push_head()?` and walk errors abort with `Err`. -/
def get_repo_changes (repo : Repo) (env : TimeEnv) (author : String) :
    Except GitError RepoStats :=
  match repo.statuses with
  | .error e => .error e
  | .ok statuses =>
    let pending := computePending repo statuses (0, 0)
    match repo.revwalk with
    | .error e => .error e
    | .ok items =>
      match walkCommits repo env author items (0, 0) with
      | .error e => .error e
      | .ok committed =>
        .ok { committed_additions := committed.1
              committed_deletions := committed.2
              pending_additions := pending.1
              pending_deletions := pending.2 }

/-- `LocChange` from src/main.rs (the persisted change record). -/
structure LocChange where
  repo_name : String
  timestamp : Int
  author : Option String
  additions : Int
  deletions : Int
  is_committed : Bool
  deriving DecidableEq

/-- Construction of the `LocChange` record in `watch_repositories`
(lines 243-250): additions and deletions are the `i32` sums of the
committed and pending counters, `is_committed` is `false`. -/
def mkLocChange (name : String) (author : String) (now : Int)
    (stats : RepoStats) : LocChange :=
  { repo_name := name
    timestamp := now
    author := some author
    additions := i32add stats.committed_additions stats.pending_additions
    deletions := i32add stats.committed_deletions stats.pending_deletions
    is_committed := false }

/-- One tracked path of the watch loop: its derived repository name
(final path segment) and the result of `Repository::open`
(`none` models `Err`). -/
structure TrackedPath where
  name : String
  repo : Option Repo

/-- The per-path open-and-compute step of the watch loop: `none` when
`Repository::open` or `get_repo_changes` fails (the path is skipped for
the cycle), `some stats` on success. -/
def scanRepo (p : TrackedPath) (env : TimeEnv) (author : String) :
    Option RepoStats :=
  match p.repo with
  | none => none
  | some repo =>
    match get_repo_changes repo env author with
    | .error _ => none
    | .ok stats => some stats

/-- `HashMap::insert` on the stats table, modelled on an association list:
replaces the entry under the key if present, otherwise appends it. -/
def updateTable (table : List (String × RepoStats)) (name : String)
    (stats : RepoStats) : List (String × RepoStats) :=
  match table with
  | [] => [(name, stats)]
  | (k, v) :: rest =>
    if k = name then (name, stats) :: rest
    else (k, v) :: updateTable rest name stats

/-- `HashMap::get` on the stats table. -/
def lookupTable (table : List (String × RepoStats)) (name : String) :
    Option RepoStats :=
  match table with
  | [] => none
  | (k, v) :: rest => if k = name then some v else lookupTable rest name

/-- One reconciliation cycle of `watch_repositories` (the body of the
`Ok(_)` arm, lines 235-259): for each tracked path in order, open and
compute; on success replace the table entry and emit a `LocChange`; on
failure skip the path.  Returns the updated table and the emitted
records in path order. -/
def reconcileCycle (paths : List TrackedPath) (env : TimeEnv)
    (author : String) (now : Int) (table : List (String × RepoStats)) :
    List (String × RepoStats) × List LocChange :=
  match paths with
  | [] => (table, [])
  | p :: rest =>
    match scanRepo p env author with
    | none => reconcileCycle rest env author now table
    | some stats =>
      let change := mkLocChange p.name author now stats
      let next := reconcileCycle rest env author now
        (updateTable table p.name stats)
      (next.1, change :: next.2)

/-- The records a cycle emits, independent of the table it starts from. -/
def cycleChanges (paths : List TrackedPath) (env : TimeEnv)
    (author : String) (now : Int) : List LocChange :=
  paths.filterMap fun p =>
    (scanRepo p env author).map (mkLocChange p.name author now)

/-- The aggregate print of the watch loop: grand totals of committed LoC
and pending LoC over every entry of the stats table (`i32` sums). -/
def aggregateTotals (table : List (String × RepoStats)) : Int × Int :=
  table.foldl
    (fun acc kv =>
      (i32add acc.1 (i32add kv.2.committed_additions kv.2.committed_deletions),
       i32add acc.2 (i32add kv.2.pending_additions kv.2.pending_deletions)))
    (0, 0)

/-- The number of status entries the pending loop actually counts: not
`CURRENT` and with a representable path. -/
def pendingCount (l : List StatusEntry) : Nat :=
  l.countP fun s => decide (s.status ≠ statusCurrent) && s.path.isSome

/-- Modelled from the spec's words, for comparison with the code: the
number of non-current status entries, untracked included, regardless of
path representability. -/
def specNonCurrentCount (l : List StatusEntry) : Nat :=
  l.countP fun s => decide (s.status ≠ statusCurrent)

/-! Basic facts about the wrapped 32-bit arithmetic. -/

theorem wrap32_eq_self (z : Int) (h1 : -2 ^ 31 ≤ z) (h2 : z < 2 ^ 31) :
    wrap32 z = z := by
  unfold wrap32
  rw [Int.emod_eq_of_lt (by omega) (by omega)]
  omega

theorem i32add_eq_add (a b : Int) (h1 : -2 ^ 31 ≤ a + b) (h2 : a + b < 2 ^ 31) :
    i32add a b = a + b :=
  wrap32_eq_self (a + b) h1 h2

theorem usizeToI32_eq (n : Nat) (h : (n : Int) < 2 ^ 31) :
    usizeToI32 n = (n : Int) :=
  wrap32_eq_self (n : Int) (by omega) h

/-! Shared concrete environments for evaluating the definitions. -/

/-- A chrono environment in which every timestamp converts and the local
date of instant `d` is `d` itself; today is date `0`. -/
def envD : TimeEnv :=
  { fromTimestamp := some, localDate := fun d => d, today := 0 }

/-- A chrono environment in which no timestamp converts. -/
def envNone : TimeEnv :=
  { fromTimestamp := fun _ => none, localDate := fun d => d, today := 0 }

/-! C3: the walk stops entirely at the first commit not from today. -/

/-- C3: if the first visited commit of the walk is not from today, the walk
returns the accumulated counters immediately, whatever commits (including
today-dated ones) lie further back in the iterator. -/
theorem walk_stops_at_first_old_commit (repo : Repo) (env : TimeEnv)
    (author : String) (oid : Nat) (c : Commit)
    (rest : List (Except GitError Nat)) (acc : Int × Int)
    (hfind : repo.findCommit oid = .ok c)
    (hold : is_commit_from_today env c.time = false) :
    walkCommits repo env author (.ok oid :: rest) acc = .ok acc := by
  simp [walkCommits, hfind, hold]

/-- A repository whose tip commit (oid 1) is from yesterday while oid 2 is
a today-dated commit by alice with a nonempty first-parent diff. -/
def repoC3 : Repo :=
  { statuses := .ok []
    diffIndexToWorkdir := .ok 0
    diffStats := fun _ => .ok (100, 50)
    revwalk := .ok [.ok 1, .ok 2]
    findCommit := fun oid =>
      if oid = 1 then
        .ok { time := 1, authorName := some "alice", parent := some ⟨.ok 10⟩, tree := .ok 11 }
      else
        .ok { time := 0, authorName := some "alice", parent := some ⟨.ok 10⟩, tree := .ok 11 }
    diffTreeToTree := fun _ _ => .ok 0 }

theorem walk_stops_at_first_old_commit_witness :
    walkCommits repoC3 envD "alice" [.ok 1, .ok 2] (0, 0) = .ok (0, 0) :=
  walk_stops_at_first_old_commit repoC3 envD "alice" 1
    { time := 1, authorName := some "alice", parent := some ⟨.ok 10⟩, tree := .ok 11 }
    [.ok 2] (0, 0) rfl rfl

/-! C5: author filtering is exact, case-sensitive string equality. -/

/-- C5: a visited today-dated commit whose recorded author display name is
`n` and whose first-parent diff stats are `(ins, del)` has those stats
added to the committed counters when `n` equals the configured author
exactly, and contributes nothing (the walk just moves on) when `n` differs
from it in any way. -/
theorem commit_author_exact_match (repo : Repo) (env : TimeEnv)
    (author : String) (oid : Nat) (c : Commit) (p : ParentCommit)
    (n : String) (tp tc d : Nat) (ins del : Nat)
    (rest : List (Except GitError Nat)) (acc : Int × Int)
    (hfind : repo.findCommit oid = .ok c)
    (htoday : is_commit_from_today env c.time = true)
    (hname : c.authorName = some n)
    (hpar : c.parent = some p)
    (hpt : p.tree = .ok tp)
    (hct : c.tree = .ok tc)
    (hdiff : repo.diffTreeToTree tp tc = .ok d)
    (hstats : repo.diffStats d = .ok (ins, del)) :
    (n = author →
      walkCommits repo env author (.ok oid :: rest) acc =
        walkCommits repo env author rest
          (i32add acc.1 (usizeToI32 ins), i32add acc.2 (usizeToI32 del))) ∧
    (n ≠ author →
      walkCommits repo env author (.ok oid :: rest) acc =
        walkCommits repo env author rest acc) := by
  constructor
  · intro he
    subst he
    simp [walkCommits, hfind, htoday, hname, hpar, hpt, hct, hdiff, hstats]
  · intro hne
    simp [walkCommits, hfind, htoday, hname, hpar, hne]

/-- A repository whose only commit (oid 1) is today-dated, authored by
"Jane Doe", with first-parent diff stats (5, 1). -/
def repoC5 : Repo :=
  { statuses := .ok []
    diffIndexToWorkdir := .ok 0
    diffStats := fun _ => .ok (5, 1)
    revwalk := .ok [.ok 1]
    findCommit := fun _ =>
      .ok { time := 0, authorName := some "Jane Doe", parent := some ⟨.ok 10⟩, tree := .ok 11 }
    diffTreeToTree := fun _ _ => .ok 20 }

theorem commit_author_exact_match_witness :
    walkCommits repoC5 envD "Jane Doe" [.ok 1] (0, 0) = .ok (5, 1) ∧
    walkCommits repoC5 envD "jane doe" [.ok 1] (0, 0) = .ok (0, 0) ∧
    walkCommits repoC5 envD "Jane" [.ok 1] (0, 0) = .ok (0, 0) := by
  refine ⟨?_, ?_, ?_⟩
  · rw [(commit_author_exact_match repoC5 envD "Jane Doe" 1
      { time := 0, authorName := some "Jane Doe", parent := some ⟨.ok 10⟩, tree := .ok 11 }
      ⟨.ok 10⟩ "Jane Doe" 10 11 20 5 1 [] (0, 0)
      rfl rfl rfl rfl rfl rfl rfl rfl).1 rfl]
    rfl
  · rw [(commit_author_exact_match repoC5 envD "jane doe" 1
      { time := 0, authorName := some "Jane Doe", parent := some ⟨.ok 10⟩, tree := .ok 11 }
      ⟨.ok 10⟩ "Jane Doe" 10 11 20 5 1 [] (0, 0)
      rfl rfl rfl rfl rfl rfl rfl rfl).2 (by decide)]
    rfl
  · rw [(commit_author_exact_match repoC5 envD "Jane" 1
      { time := 0, authorName := some "Jane Doe", parent := some ⟨.ok 10⟩, tree := .ok 11 }
      ⟨.ok 10⟩ "Jane Doe" 10 11 20 5 1 [] (0, 0)
      rfl rfl rfl rfl rfl rfl rfl rfl).2 (by decide)]
    rfl

/-! C6: a root commit contributes nothing and does not abort the walk. -/

/-- C6: a visited today-dated commit for which `commit.parent(0)` fails
(in particular a root commit) leaves the counters untouched and the walk
continues with the remaining iterator items, raising no error. -/
theorem walk_skips_root_commit (repo : Repo) (env : TimeEnv)
    (author : String) (oid : Nat) (c : Commit)
    (rest : List (Except GitError Nat)) (acc : Int × Int)
    (hfind : repo.findCommit oid = .ok c)
    (htoday : is_commit_from_today env c.time = true)
    (hroot : c.parent = none) :
    walkCommits repo env author (.ok oid :: rest) acc =
      walkCommits repo env author rest acc := by
  by_cases hname : c.authorName.getD "" = author
  · simp [walkCommits, hfind, htoday, hroot, hname]
  · simp [walkCommits, hfind, htoday, hname]

/-- A repository whose only commit (oid 1) is a today-dated root commit by
alice. -/
def repoC6 : Repo :=
  { statuses := .ok []
    diffIndexToWorkdir := .ok 0
    diffStats := fun _ => .ok (0, 0)
    revwalk := .ok [.ok 1]
    findCommit := fun _ =>
      .ok { time := 0, authorName := some "alice", parent := none, tree := .ok 11 }
    diffTreeToTree := fun _ _ => .ok 20 }

theorem walk_skips_root_commit_witness :
    walkCommits repoC6 envD "alice" [.ok 1] (0, 0) =
      walkCommits repoC6 envD "alice" [] (0, 0) ∧
    get_repo_changes repoC6 envD "alice" =
      .ok { committed_additions := 0, committed_deletions := 0,
            pending_additions := 0, pending_deletions := 0 } :=
  ⟨walk_skips_root_commit repoC6 envD "alice" 1
    { time := 0, authorName := some "alice", parent := none, tree := .ok 11 }
    [] (0, 0) rfl rfl rfl, rfl⟩

/-! C9: an unconvertible timestamp counts as not-from-today and stops the
walk. -/

/-- C9: when `DateTime::from_timestamp` yields nothing for a timestamp,
`is_commit_from_today` returns `false`, and a visited commit bearing that
timestamp stops the walk with the accumulated counters, exactly as an
older commit would. -/
theorem invalid_timestamp_not_today (env : TimeEnv) (t : Int)
    (h : env.fromTimestamp t = none) :
    is_commit_from_today env t = false ∧
    ∀ (repo : Repo) (author : String) (oid : Nat) (c : Commit)
      (rest : List (Except GitError Nat)) (acc : Int × Int),
      repo.findCommit oid = .ok c → c.time = t →
      walkCommits repo env author (.ok oid :: rest) acc = .ok acc := by
  have h1 : is_commit_from_today env t = false := by
    simp [is_commit_from_today, h]
  refine ⟨h1, ?_⟩
  intro repo author oid c rest acc hfind htime
  simp [walkCommits, hfind, htime, h1]

/-- A repository whose only commit (oid 1) has timestamp 5 and is by
alice. -/
def repoC9 : Repo :=
  { statuses := .ok []
    diffIndexToWorkdir := .ok 0
    diffStats := fun _ => .ok (7, 3)
    revwalk := .ok [.ok 1]
    findCommit := fun _ =>
      .ok { time := 5, authorName := some "alice", parent := some ⟨.ok 10⟩, tree := .ok 11 }
    diffTreeToTree := fun _ _ => .ok 20 }

theorem invalid_timestamp_not_today_witness :
    is_commit_from_today envNone 5 = false ∧
    walkCommits repoC9 envNone "alice" [.ok 1] (0, 0) = .ok (0, 0) :=
  ⟨(invalid_timestamp_not_today envNone 5 rfl).1,
   (invalid_timestamp_not_today envNone 5 rfl).2 repoC9 "alice" 1
     { time := 5, authorName := some "alice", parent := some ⟨.ok 10⟩, tree := .ok 11 }
     [] (0, 0) rfl rfl⟩

/-! C2: which per-commit errors are fatal during the walk. -/

/-- A repository whose revwalk yields no iterator error, whose tip commit
(oid 1) is today-dated by alice with an unreadable parent tree (error 1),
and whose oids 3-7 exhibit the other per-commit failure modes: oid 3 fails
commit lookup (error 2), oid 4 has an unreadable own tree (error 3),
oid 5 fails the tree-to-tree diff (error 4), oid 6 fails the diff stats
(error 5), and oid 7 is a root commit. -/
def repoC2 : Repo :=
  { statuses := .ok []
    diffIndexToWorkdir := .ok 0
    diffStats := fun d => if d = 21 then .error ⟨5⟩ else .ok (5, 1)
    revwalk := .ok [.ok 1, .ok 2]
    findCommit := fun oid =>
      if oid = 1 then
        .ok { time := 0, authorName := some "alice", parent := some ⟨.error ⟨1⟩⟩, tree := .ok 11 }
      else if oid = 3 then .error ⟨2⟩
      else if oid = 4 then
        .ok { time := 0, authorName := some "alice", parent := some ⟨.ok 10⟩, tree := .error ⟨3⟩ }
      else if oid = 5 then
        .ok { time := 0, authorName := some "alice", parent := some ⟨.ok 10⟩, tree := .ok 11 }
      else if oid = 6 then
        .ok { time := 0, authorName := some "alice", parent := some ⟨.ok 12⟩, tree := .ok 13 }
      else if oid = 7 then
        .ok { time := 0, authorName := some "alice", parent := none, tree := .ok 11 }
      else
        .ok { time := 0, authorName := some "alice", parent := some ⟨.ok 12⟩, tree := .ok 13 }
    diffTreeToTree := fun a _ => if a = 10 then .error ⟨4⟩ else .ok 21 }

/-- C2 counterexample: on `repoC2` the history-walk iterator raises no
error (`revwalk` is a list of plain oids), the second visited commit is a
clean today-dated commit by alice, yet `get_repo_changes` aborts with the
parent-tree read error of the first commit instead of skipping that
statistic and continuing. -/
theorem walk_tree_error_counterexample :
    repoC2.revwalk = .ok [.ok 1, .ok 2] ∧
    get_repo_changes repoC2 envD "alice" = .error ⟨1⟩ :=
  ⟨rfl, rfl⟩

/-- C2 amended: during the walk, an iterator-item error, a failed commit
lookup, an unreadable parent tree, an unreadable commit tree, a failed
tree-to-tree diff and failed diff stats all abort the walk with that
error; only a failure to obtain the first parent (`commit.parent(0)`,
e.g. a root commit) is non-fatal and lets the walk continue. -/
theorem walk_error_propagation :
    (∀ (repo : Repo) (env : TimeEnv) (author : String) (e : GitError)
       (rest : List (Except GitError Nat)) (acc : Int × Int),
       walkCommits repo env author (.error e :: rest) acc = .error e) ∧
    (∀ (repo : Repo) (env : TimeEnv) (author : String) (oid : Nat)
       (e : GitError) (rest : List (Except GitError Nat)) (acc : Int × Int),
       repo.findCommit oid = .error e →
       walkCommits repo env author (.ok oid :: rest) acc = .error e) ∧
    (∀ (repo : Repo) (env : TimeEnv) (author : String) (oid : Nat)
       (c : Commit) (p : ParentCommit) (e : GitError)
       (rest : List (Except GitError Nat)) (acc : Int × Int),
       repo.findCommit oid = .ok c →
       is_commit_from_today env c.time = true →
       c.authorName.getD "" = author →
       c.parent = some p → p.tree = .error e →
       walkCommits repo env author (.ok oid :: rest) acc = .error e) ∧
    (∀ (repo : Repo) (env : TimeEnv) (author : String) (oid : Nat)
       (c : Commit) (p : ParentCommit) (tp : Nat) (e : GitError)
       (rest : List (Except GitError Nat)) (acc : Int × Int),
       repo.findCommit oid = .ok c →
       is_commit_from_today env c.time = true →
       c.authorName.getD "" = author →
       c.parent = some p → p.tree = .ok tp → c.tree = .error e →
       walkCommits repo env author (.ok oid :: rest) acc = .error e) ∧
    (∀ (repo : Repo) (env : TimeEnv) (author : String) (oid : Nat)
       (c : Commit) (p : ParentCommit) (tp tc : Nat) (e : GitError)
       (rest : List (Except GitError Nat)) (acc : Int × Int),
       repo.findCommit oid = .ok c →
       is_commit_from_today env c.time = true →
       c.authorName.getD "" = author →
       c.parent = some p → p.tree = .ok tp → c.tree = .ok tc →
       repo.diffTreeToTree tp tc = .error e →
       walkCommits repo env author (.ok oid :: rest) acc = .error e) ∧
    (∀ (repo : Repo) (env : TimeEnv) (author : String) (oid : Nat)
       (c : Commit) (p : ParentCommit) (tp tc d : Nat) (e : GitError)
       (rest : List (Except GitError Nat)) (acc : Int × Int),
       repo.findCommit oid = .ok c →
       is_commit_from_today env c.time = true →
       c.authorName.getD "" = author →
       c.parent = some p → p.tree = .ok tp → c.tree = .ok tc →
       repo.diffTreeToTree tp tc = .ok d → repo.diffStats d = .error e →
       walkCommits repo env author (.ok oid :: rest) acc = .error e) ∧
    (∀ (repo : Repo) (env : TimeEnv) (author : String) (oid : Nat)
       (c : Commit) (rest : List (Except GitError Nat)) (acc : Int × Int),
       repo.findCommit oid = .ok c →
       is_commit_from_today env c.time = true →
       c.parent = none →
       walkCommits repo env author (.ok oid :: rest) acc =
         walkCommits repo env author rest acc) := by
  refine ⟨?_, ?_, ?_, ?_, ?_, ?_, ?_⟩
  · intro repo env author e rest acc
    simp [walkCommits]
  · intro repo env author oid e rest acc hfind
    simp [walkCommits, hfind]
  · intro repo env author oid c p e rest acc hfind htoday hname hpar hpt
    simp [walkCommits, hfind, htoday, hname, hpar, hpt]
  · intro repo env author oid c p tp e rest acc hfind htoday hname hpar hpt hct
    simp [walkCommits, hfind, htoday, hname, hpar, hpt, hct]
  · intro repo env author oid c p tp tc e rest acc hfind htoday hname hpar hpt hct hdiff
    simp [walkCommits, hfind, htoday, hname, hpar, hpt, hct, hdiff]
  · intro repo env author oid c p tp tc d e rest acc hfind htoday hname hpar hpt hct hdiff hstats
    simp [walkCommits, hfind, htoday, hname, hpar, hpt, hct, hdiff, hstats]
  · intro repo env author oid c rest acc hfind htoday hroot
    by_cases hname : c.authorName.getD "" = author
    · simp [walkCommits, hfind, htoday, hroot, hname]
    · simp [walkCommits, hfind, htoday, hname]

theorem walk_error_propagation_witness :
    walkCommits repoC2 envD "alice" [.error ⟨9⟩] (0, 0) = .error ⟨9⟩ ∧
    walkCommits repoC2 envD "alice" [.ok 3] (0, 0) = .error ⟨2⟩ ∧
    walkCommits repoC2 envD "alice" [.ok 1] (0, 0) = .error ⟨1⟩ ∧
    walkCommits repoC2 envD "alice" [.ok 4] (0, 0) = .error ⟨3⟩ ∧
    walkCommits repoC2 envD "alice" [.ok 5] (0, 0) = .error ⟨4⟩ ∧
    walkCommits repoC2 envD "alice" [.ok 6] (0, 0) = .error ⟨5⟩ ∧
    walkCommits repoC2 envD "alice" [.ok 7] (0, 0) =
      walkCommits repoC2 envD "alice" [] (0, 0) :=
  ⟨walk_error_propagation.1 repoC2 envD "alice" ⟨9⟩ [] (0, 0),
   walk_error_propagation.2.1 repoC2 envD "alice" 3 ⟨2⟩ [] (0, 0) rfl,
   walk_error_propagation.2.2.1 repoC2 envD "alice" 1
     { time := 0, authorName := some "alice", parent := some ⟨.error ⟨1⟩⟩, tree := .ok 11 }
     ⟨.error ⟨1⟩⟩ ⟨1⟩ [] (0, 0) rfl rfl rfl rfl rfl,
   walk_error_propagation.2.2.2.1 repoC2 envD "alice" 4
     { time := 0, authorName := some "alice", parent := some ⟨.ok 10⟩, tree := .error ⟨3⟩ }
     ⟨.ok 10⟩ 10 ⟨3⟩ [] (0, 0) rfl rfl rfl rfl rfl rfl,
   walk_error_propagation.2.2.2.2.1 repoC2 envD "alice" 5
     { time := 0, authorName := some "alice", parent := some ⟨.ok 10⟩, tree := .ok 11 }
     ⟨.ok 10⟩ 10 11 ⟨4⟩ [] (0, 0) rfl rfl rfl rfl rfl rfl rfl,
   walk_error_propagation.2.2.2.2.2.1 repoC2 envD "alice" 6
     { time := 0, authorName := some "alice", parent := some ⟨.ok 12⟩, tree := .ok 13 }
     ⟨.ok 12⟩ 12 13 21 ⟨5⟩ [] (0, 0) rfl rfl rfl rfl rfl rfl rfl rfl,
   walk_error_propagation.2.2.2.2.2.2 repoC2 envD "alice" 7
     { time := 0, authorName := some "alice", parent := none, tree := .ok 11 }
     [] (0, 0) rfl rfl rfl⟩

/-! C1: the pending counters are the whole-repository diff stat totals
added once per counted status entry. -/

theorem computePending_spec (repo : Repo) (ca cb : Int)
    (hc : count_file_changes repo = (ca, cb))
    (hca : 0 ≤ ca) (hcb : 0 ≤ cb) :
    ∀ (l : List StatusEntry) (a0 b0 : Int), 0 ≤ a0 → 0 ≤ b0 →
      a0 + (pendingCount l : Int) * ca < 2 ^ 31 →
      b0 + (pendingCount l : Int) * cb < 2 ^ 31 →
      computePending repo l (a0, b0) =
        (a0 + (pendingCount l : Int) * ca,
         b0 + (pendingCount l : Int) * cb) := by
  have h31 : (0 : Int) < 2 ^ 31 := by positivity
  intro l
  induction l with
  | nil =>
    intro a0 b0 _ _ _ _
    simp [computePending, pendingCount]
  | cons s rest ih =>
    intro a0 b0 ha0 hb0 hA hB
    have hk : (0 : Int) ≤ (pendingCount rest : Int) := Int.natCast_nonneg _
    by_cases hs : s.status = statusCurrent
    · have hpc : pendingCount (s :: rest) = pendingCount rest := by
        simp [pendingCount, List.countP_cons, hs, statusCurrent]
      rw [hpc] at hA hB ⊢
      simpa [computePending, hs] using ih a0 b0 ha0 hb0 hA hB
    · cases hp : s.path with
      | none =>
        have hpc : pendingCount (s :: rest) = pendingCount rest := by
          simp [pendingCount, List.countP_cons, hp]
        rw [hpc] at hA hB ⊢
        simpa [computePending, hs, hp] using ih a0 b0 ha0 hb0 hA hB
      | some q =>
        have hpc : (pendingCount (s :: rest) : Int) = (pendingCount rest : Int) + 1 := by
          simp [pendingCount, List.countP_cons, hs, hp]
        rw [hpc] at hA hB ⊢
        have hkc : (0 : Int) ≤ (pendingCount rest : Int) * ca := mul_nonneg hk hca
        have hkd : (0 : Int) ≤ (pendingCount rest : Int) * cb := mul_nonneg hk hcb
        have hA2 : (a0 + ca) + (pendingCount rest : Int) * ca < 2 ^ 31 := by
          nlinarith
        have hB2 : (b0 + cb) + (pendingCount rest : Int) * cb < 2 ^ 31 := by
          nlinarith
        have hadd : i32add a0 ca = a0 + ca :=
          i32add_eq_add a0 ca (by linarith) (by linarith)
        have hbdd : i32add b0 cb = b0 + cb :=
          i32add_eq_add b0 cb (by linarith) (by linarith)
        have hstep : computePending repo (s :: rest) (a0, b0) =
            computePending repo rest (a0 + ca, b0 + cb) := by
          simp [computePending, hs, hp, hc, hadd, hbdd]
        rw [hstep,
          ih (a0 + ca) (b0 + cb) (by linarith) (by linarith) hA2 hB2]
        simp only [Prod.mk.injEq]
        constructor <;> ring

/-- C1 amended: the pending counters equal `N` times the whole-repository
index-to-workdir diff stat totals, where `N` counts the status entries
that are not `CURRENT` **and** have a representable path (the code skips
an entry whose `path()` is unavailable), provided the products stay in
`i32` range. -/
theorem get_repo_changes_pending_spec (repo : Repo) (env : TimeEnv)
    (author : String) (statuses : List StatusEntry) (stats : RepoStats)
    (ca cb : Int)
    (hst : repo.statuses = .ok statuses)
    (hc : count_file_changes repo = (ca, cb))
    (hca : 0 ≤ ca) (hcb : 0 ≤ cb)
    (hA : (pendingCount statuses : Int) * ca < 2 ^ 31)
    (hB : (pendingCount statuses : Int) * cb < 2 ^ 31)
    (hres : get_repo_changes repo env author = .ok stats) :
    stats.pending_additions = (pendingCount statuses : Int) * ca ∧
    stats.pending_deletions = (pendingCount statuses : Int) * cb := by
  have hcp := computePending_spec repo ca cb hc hca hcb statuses 0 0
    le_rfl le_rfl (by simpa using hA) (by simpa using hB)
  simp only [get_repo_changes, hst] at hres
  split at hres
  · simp at hres
  · split at hres
    · simp at hres
    · simp only [Except.ok.injEq] at hres
      rw [← hres, hcp]
      constructor <;> simp

/-- A repository with a single non-current status entry whose path is not
representable, and a whole-repository diff stat of (10, 2). -/
def repoC1 : Repo :=
  { statuses := .ok [⟨1, none⟩]
    diffIndexToWorkdir := .ok 0
    diffStats := fun _ => .ok (10, 2)
    revwalk := .ok []
    findCommit := fun _ => .error ⟨0⟩
    diffTreeToTree := fun _ _ => .ok 0 }

/-- C1 counterexample: `repoC1` has one non-current status entry and a
whole-repository diff stat of (10, 2), so the claim predicts pending
counters `1 * (10, 2)`; the code returns `(0, 0)` because the entry's
path is not representable and the entry is therefore never counted. -/
theorem pending_per_entry_counterexample :
    specNonCurrentCount [⟨1, none⟩] = 1 ∧
    count_file_changes repoC1 = (10, 2) ∧
    get_repo_changes repoC1 envD "alice" =
      .ok { committed_additions := 0, committed_deletions := 0,
            pending_additions := 0, pending_deletions := 0 } ∧
    ¬ ((0 : Int) = 1 * 10 ∧ (0 : Int) = 1 * 2) :=
  ⟨rfl, rfl, rfl, by decide⟩

/-- A repository with two untracked files (status `WT_NEW`, bit 128) and
a whole-repository diff stat of (10, 2), and no commits. -/
def repoC1w : Repo :=
  { statuses := .ok [⟨128, some "u1.txt"⟩, ⟨128, some "u2.txt"⟩]
    diffIndexToWorkdir := .ok 0
    diffStats := fun _ => .ok (10, 2)
    revwalk := .ok []
    findCommit := fun _ => .error ⟨0⟩
    diffTreeToTree := fun _ _ => .ok 0 }

theorem get_repo_changes_pending_spec_witness :
    ({ committed_additions := 0, committed_deletions := 0,
       pending_additions := 20, pending_deletions := 4 } : RepoStats).pending_additions =
      (pendingCount [⟨128, some "u1.txt"⟩, ⟨128, some "u2.txt"⟩] : Int) * 10 ∧
    ({ committed_additions := 0, committed_deletions := 0,
       pending_additions := 20, pending_deletions := 4 } : RepoStats).pending_deletions =
      (pendingCount [⟨128, some "u1.txt"⟩, ⟨128, some "u2.txt"⟩] : Int) * 2 :=
  get_repo_changes_pending_spec repoC1w envD "alice"
    [⟨128, some "u1.txt"⟩, ⟨128, some "u2.txt"⟩]
    { committed_additions := 0, committed_deletions := 0,
      pending_additions := 20, pending_deletions := 4 }
    10 2 rfl rfl (by decide) (by decide) (by decide) (by decide) rfl

/-! C10: a failed whole-repository diff contributes zero pending changes
instead of an error. -/

/-- C10: `count_file_changes` returns `(0, 0)` when the index-to-workdir
diff cannot be computed, and also when the diff exists but its stats
cannot be computed; and a `(0, 0)` per-entry stat leaves the pending
counters of the status loop at `(0, 0)`, so the pending computation never
produces an error once the status list is obtained. -/
theorem count_file_changes_total_on_failure :
    (∀ (repo : Repo) (e : GitError),
      repo.diffIndexToWorkdir = .error e → count_file_changes repo = (0, 0)) ∧
    (∀ (repo : Repo) (d : Nat) (e : GitError),
      repo.diffIndexToWorkdir = .ok d → repo.diffStats d = .error e →
      count_file_changes repo = (0, 0)) ∧
    (∀ (repo : Repo) (l : List StatusEntry),
      count_file_changes repo = (0, 0) →
      computePending repo l (0, 0) = (0, 0)) := by
  refine ⟨?_, ?_, ?_⟩
  · intro repo e h
    simp [count_file_changes, h]
  · intro repo d e h1 h2
    simp [count_file_changes, h1, h2]
  · intro repo l h
    induction l with
    | nil => simp [computePending]
    | cons s rest ih =>
      by_cases hs : s.status = statusCurrent
      · simpa [computePending, hs] using ih
      · cases hp : s.path with
        | none => simpa [computePending, hs, hp] using ih
        | some q =>
          have hz : i32add 0 0 = 0 := by
            simp [i32add, wrap32]
          simpa [computePending, hs, hp, h, hz] using ih

/-- A repository with one modified file whose index-to-workdir diff cannot
be computed (error 6). -/
def repoC10 : Repo :=
  { statuses := .ok [⟨2, some "m.txt"⟩]
    diffIndexToWorkdir := .error ⟨6⟩
    diffStats := fun _ => .ok (10, 2)
    revwalk := .ok []
    findCommit := fun _ => .error ⟨0⟩
    diffTreeToTree := fun _ _ => .ok 0 }

/-- A repository whose index-to-workdir diff exists but whose stats cannot
be computed (error 7). -/
def repoC10b : Repo :=
  { statuses := .ok [⟨2, some "m.txt"⟩]
    diffIndexToWorkdir := .ok 0
    diffStats := fun _ => .error ⟨7⟩
    revwalk := .ok []
    findCommit := fun _ => .error ⟨0⟩
    diffTreeToTree := fun _ _ => .ok 0 }

theorem count_file_changes_total_on_failure_witness :
    count_file_changes repoC10 = (0, 0) ∧
    count_file_changes repoC10b = (0, 0) ∧
    computePending repoC10 [⟨2, some "m.txt"⟩] (0, 0) = (0, 0) ∧
    get_repo_changes repoC10 envD "alice" =
      .ok { committed_additions := 0, committed_deletions := 0,
            pending_additions := 0, pending_deletions := 0 } :=
  ⟨count_file_changes_total_on_failure.1 repoC10 ⟨6⟩ rfl,
   count_file_changes_total_on_failure.2.1 repoC10b 0 ⟨7⟩ rfl rfl,
   count_file_changes_total_on_failure.2.2 repoC10 [⟨2, some "m.txt"⟩]
     (count_file_changes_total_on_failure.1 repoC10 ⟨6⟩ rfl),
   rfl⟩

/-! C7: the stats table is updated by unconditional replacement and never
loses an entry. -/

theorem lookup_updateTable_self (t : List (String × RepoStats))
    (n : String) (s : RepoStats) :
    lookupTable (updateTable t n s) n = some s := by
  induction t with
  | nil => simp [updateTable, lookupTable]
  | cons kv rest ih =>
    rcases kv with ⟨k, v⟩
    by_cases hk : k = n
    · simp [updateTable, lookupTable, hk]
    · simp [updateTable, lookupTable, hk, ih]

theorem lookup_updateTable_other (t : List (String × RepoStats))
    (n k : String) (s : RepoStats) (hk : k ≠ n) :
    lookupTable (updateTable t n s) k = lookupTable t k := by
  induction t with
  | nil => simp [updateTable, lookupTable, hk, Ne.symm hk]
  | cons kv rest ih =>
    rcases kv with ⟨k0, v⟩
    by_cases h0 : k0 = n
    · subst h0
      simp [updateTable, lookupTable, Ne.symm hk, hk]
    · by_cases h1 : k0 = k
      · simp [updateTable, lookupTable, h0, h1, hk]
      · simp [updateTable, lookupTable, h0, h1, ih]

theorem lookup_mem (t : List (String × RepoStats)) (n : String)
    (s : RepoStats) (h : lookupTable t n = some s) : (n, s) ∈ t := by
  induction t with
  | nil => simp [lookupTable] at h
  | cons kv rest ih =>
    rcases kv with ⟨k, v⟩
    by_cases hk : k = n
    · subst hk
      simp [lookupTable] at h
      simp [h]
    · simp [lookupTable, hk] at h
      simp [ih h]

theorem cycle_preserves_failed_entry (paths : List TrackedPath)
    (env : TimeEnv) (author : String) (now : Int) (n : String) :
    ∀ (t : List (String × RepoStats)),
      (∀ p ∈ paths, p.name = n → scanRepo p env author = none) →
      lookupTable (reconcileCycle paths env author now t).1 n =
        lookupTable t n := by
  induction paths with
  | nil =>
    intro t _
    rfl
  | cons p rest ih =>
    intro t hfail
    cases hscan : scanRepo p env author with
    | none =>
      simp only [reconcileCycle, hscan]
      exact ih t fun q hq => hfail q (List.mem_cons_of_mem p hq)
    | some s =>
      have hne : p.name ≠ n := by
        intro he
        exact absurd (hfail p (List.mem_cons_self p rest) he)
          (by simp [hscan])
      simp only [reconcileCycle, hscan]
      rw [ih (updateTable t p.name s)
        (fun q hq => hfail q (List.mem_cons_of_mem p hq))]
      exact lookup_updateTable_other t p.name n s (Ne.symm hne)

/-- C7: `update` replaces the entry under the repository name
unconditionally and touches no other entry; an entry found in the table is
one of its members (so the aggregate pass over the table still covers it);
and a cycle in which every path carrying a given repository name fails to
open or compute leaves that name's entry exactly as it was. -/
theorem stats_table_no_eviction :
    (∀ (t : List (String × RepoStats)) (n : String) (s : RepoStats),
      lookupTable (updateTable t n s) n = some s) ∧
    (∀ (t : List (String × RepoStats)) (n k : String) (s : RepoStats),
      k ≠ n → lookupTable (updateTable t n s) k = lookupTable t k) ∧
    (∀ (t : List (String × RepoStats)) (n : String) (s : RepoStats),
      lookupTable t n = some s → (n, s) ∈ t) ∧
    (∀ (paths : List TrackedPath) (env : TimeEnv) (author : String)
       (now : Int) (t : List (String × RepoStats)) (n : String),
      (∀ p ∈ paths, p.name = n → scanRepo p env author = none) →
      lookupTable (reconcileCycle paths env author now t).1 n =
        lookupTable t n) :=
  ⟨lookup_updateTable_self,
   lookup_updateTable_other,
   lookup_mem,
   fun paths env author now t n h =>
     cycle_preserves_failed_entry paths env author now n t h⟩

/-- A tracked path whose repository can no longer be opened. -/
def brokenPath : TrackedPath := { name := "A", repo := none }

/-- A snapshot previously computed for repository "A". -/
def statsA : RepoStats :=
  { committed_additions := 5, committed_deletions := 1,
    pending_additions := 20, pending_deletions := 4 }

/-- A fresher snapshot for repository "A". -/
def statsA2 : RepoStats :=
  { committed_additions := 7, committed_deletions := 2,
    pending_additions := 0, pending_deletions := 0 }

theorem stats_table_no_eviction_witness :
    lookupTable (updateTable [("A", statsA)] "A" statsA2) "A" = some statsA2 ∧
    lookupTable (updateTable [("A", statsA)] "B" statsA2) "A" =
      lookupTable [("A", statsA)] "A" ∧
    ("A", statsA) ∈ [("A", statsA)] ∧
    lookupTable (reconcileCycle [brokenPath] envD "alice" 0
      [("A", statsA)]).1 "A" = lookupTable [("A", statsA)] "A" :=
  ⟨stats_table_no_eviction.1 [("A", statsA)] "A" statsA2,
   stats_table_no_eviction.2.1 [("A", statsA)] "B" "A" statsA2 (by decide),
   stats_table_no_eviction.2.2.1 [("A", statsA)] "A" statsA rfl,
   stats_table_no_eviction.2.2.2 [brokenPath] envD "alice" 0
     [("A", statsA)] "A" (by intro p hp _; simp at hp; simp [hp, scanRepo, brokenPath])⟩

/-! C4 and C8: the emitted change records. -/

theorem reconcileCycle_snd_eq (paths : List TrackedPath) (env : TimeEnv)
    (author : String) (now : Int) (t : List (String × RepoStats)) :
    (reconcileCycle paths env author now t).2 =
      cycleChanges paths env author now := by
  induction paths generalizing t with
  | nil => rfl
  | cons p rest ih =>
    cases h : scanRepo p env author with
    | none =>
      simp [reconcileCycle, cycleChanges, List.filterMap_cons, h, ih,
        cycleChanges]
    | some s =>
      simp only [reconcileCycle, h, cycleChanges, List.filterMap_cons,
        Option.map_some']
      rw [ih]
      rfl

/-- C4: every record a successful per-repository scan emits in a cycle has
`additions` equal to committed plus pending additions, `deletions` equal
to committed plus pending deletions (exact as long as the `i32` sums do
not overflow), and every record emitted in any cycle has `is_committed`
equal to `false`. -/
theorem change_record_totals (paths : List TrackedPath) (env : TimeEnv)
    (author : String) (now : Int) (table : List (String × RepoStats))
    (p : TrackedPath) (stats : RepoStats)
    (hmem : p ∈ paths) (hscan : scanRepo p env author = some stats)
    (h1 : 0 ≤ stats.committed_additions) (h2 : 0 ≤ stats.pending_additions)
    (h3 : 0 ≤ stats.committed_deletions) (h4 : 0 ≤ stats.pending_deletions)
    (h5 : stats.committed_additions + stats.pending_additions < 2 ^ 31)
    (h6 : stats.committed_deletions + stats.pending_deletions < 2 ^ 31) :
    mkLocChange p.name author now stats ∈
      (reconcileCycle paths env author now table).2 ∧
    (mkLocChange p.name author now stats).additions =
      stats.committed_additions + stats.pending_additions ∧
    (mkLocChange p.name author now stats).deletions =
      stats.committed_deletions + stats.pending_deletions ∧
    ∀ c ∈ (reconcileCycle paths env author now table).2,
      c.is_committed = false := by
  rw [reconcileCycle_snd_eq]
  refine ⟨?_, ?_, ?_, ?_⟩
  · exact List.mem_filterMap.mpr ⟨p, hmem, by rw [hscan]; rfl⟩
  · simpa [mkLocChange] using
      i32add_eq_add stats.committed_additions stats.pending_additions
        (by linarith) h5
  · simpa [mkLocChange] using
      i32add_eq_add stats.committed_deletions stats.pending_deletions
        (by linarith) h6
  · intro c hc
    rcases List.mem_filterMap.mp hc with ⟨q, _, hq⟩
    cases hsq : scanRepo q env author with
    | none =>
      rw [hsq] at hq
      simp at hq
    | some s =>
      rw [hsq] at hq
      simp only [Option.map_some', Option.some.injEq] at hq
      rw [← hq]
      rfl

/-- The end-to-end repository of the spec's scenario: two untracked files,
whole-repository diff stat (10, 2), and one today-dated commit by alice
with first-parent diff (5, 1). -/
def repoA : Repo :=
  { statuses := .ok [⟨128, some "u1.txt"⟩, ⟨128, some "u2.txt"⟩]
    diffIndexToWorkdir := .ok 0
    diffStats := fun d => if d = 0 then .ok (10, 2) else .ok (5, 1)
    revwalk := .ok [.ok 1]
    findCommit := fun _ =>
      .ok { time := 0, authorName := some "alice", parent := some ⟨.ok 10⟩, tree := .ok 11 }
    diffTreeToTree := fun _ _ => .ok 1 }

theorem change_record_totals_witness :
    mkLocChange "A" "alice" 0 statsA ∈
      (reconcileCycle [⟨"A", some repoA⟩] envD "alice" 0 []).2 ∧
    (mkLocChange "A" "alice" 0 statsA).additions =
      statsA.committed_additions + statsA.pending_additions ∧
    (mkLocChange "A" "alice" 0 statsA).deletions =
      statsA.committed_deletions + statsA.pending_deletions ∧
    ∀ c ∈ (reconcileCycle [⟨"A", some repoA⟩] envD "alice" 0 []).2,
      c.is_committed = false :=
  change_record_totals [⟨"A", some repoA⟩] envD "alice" 0 []
    ⟨"A", some repoA⟩ statsA (by simp) rfl
    (by decide) (by decide) (by decide) (by decide) (by decide) (by decide)

theorem cycleChanges_loc_map (paths : List TrackedPath) (env : TimeEnv)
    (author : String) (now1 now2 : Int) :
    (cycleChanges paths env author now1).map (fun c => (c.additions, c.deletions)) =
      (cycleChanges paths env author now2).map (fun c => (c.additions, c.deletions)) := by
  induction paths with
  | nil => rfl
  | cons p rest ih =>
    cases h : scanRepo p env author with
    | none =>
      simp only [cycleChanges, List.filterMap_cons, h, Option.map_none'] at ih ⊢
      exact ih
    | some s =>
      simp only [cycleChanges, List.filterMap_cons, h, Option.map_some',
        List.map_cons] at ih ⊢
      rw [ih]
      rfl

/-- C8: the change-detection computation is a function of the repository
state, the author and the date environment alone, so two consecutive
reconciliation cycles over unchanged repositories emit records with
identical additions and deletions values (whatever table the first cycle
left behind and whatever timestamps the two cycles carry). -/
theorem cycle_idempotent (paths : List TrackedPath) (env : TimeEnv)
    (author : String) (now1 now2 : Int) (table : List (String × RepoStats)) :
    ((reconcileCycle paths env author now2
        (reconcileCycle paths env author now1 table).1).2).map
      (fun c => (c.additions, c.deletions)) =
    ((reconcileCycle paths env author now1 table).2).map
      (fun c => (c.additions, c.deletions)) := by
  rw [reconcileCycle_snd_eq, reconcileCycle_snd_eq]
  exact cycleChanges_loc_map paths env author now2 now1

end DevMetrics
